import Mathlib

/-!
Verification of the core line-processing logic of a small interactive shell
written in Rust.  The definitions below are shallow embeddings of the Rust
source: strings are modelled as `List Char`, fallible functions return
`Except`, and panics (`expect`, out-of-bounds indexing) are modelled as an
explicit error / `panic` constructor.
-/

deriving instance DecidableEq for Except

namespace Shell

/-- Lex-phase errors of the shell (`anyhow::bail!` sites in `tokenize` and
`process_string`): an unclosed quote, or a trailing escape character. -/
inductive LexError where
  | unclosedQuote
  | trailingEscape
deriving DecidableEq, Repr

/-! ## `unescape_string` (src/strings.rs)

Unescapes a string according to double-quote rules: `\"` becomes `"`,
`\\` becomes `\`, every other backslash is preserved. -/

def unescape_string : List Char → List Char
  | [] => []
  | ['\\'] => ['\\']
  | '\\' :: c :: rest =>
      if c = '"' ∨ c = '\\' then c :: unescape_string rest
      else '\\' :: unescape_string (c :: rest)
  | c :: rest => c :: unescape_string rest

/-! ## `process_string` (src/strings.rs)

The Rust code walks the characters of one raw token keeping a `StringState`
(`result`, `current_part`, `in_quote`) and a peekable iterator.  We model it
as a fold of a one-character step function; the iterator's look-ahead after a
backslash is modelled with a `pending` flag (the backslash has been seen, the
decision about it is taken on the next character or at end of input). -/

structure PSState where
  result : List Char
  current : List Char
  inQuote : Option Char
  pending : Bool
deriving DecidableEq, Repr

def psInit : PSState := ⟨[], [], none, false⟩

/-- `StringState::finish_quote` / `finish`: a single-quoted part is appended
literally, a double-quoted part is unescaped. -/
def finishQuotePart (q : Char) (part : List Char) : List Char :=
  if q = '\'' then part else unescape_string part

/-- One step of `process_string`'s main loop for a character that is not
preceded by an unresolved backslash (the `match c` in the Rust loop). -/
def psStepN (st : PSState) (c : Char) : PSState :=
  if st.inQuote = none ∧ (c = '\'' ∨ c = '"') then
    { st with inQuote := some c }
  else if st.inQuote = some c then
    { st with result := st.result ++ finishQuotePart c st.current,
              current := [], inQuote := none }
  else if c = '\\' then
    { st with pending := true }
  else if st.inQuote.isSome then
    { st with current := st.current ++ [c] }
  else
    { st with result := st.result ++ [c] }

/-- One step of `process_string`'s main loop.  When `pending` is set the
previous character was a backslash and `c` plays the role of the character
the Rust `handle_backslash` obtains from the iterator. -/
def psStep (st : PSState) (c : Char) : PSState :=
  if st.pending then
    match st.inQuote with
    | some q =>
      if q = '\'' then
        -- inside single quotes the backslash and the next char are literal
        { st with current := st.current ++ ['\\', c], pending := false }
      else if q = '"' then
        -- inside double quotes only " and \ are escaped
        if c = '"' ∨ c = '\\' then
          { st with current := st.current ++ [c], pending := false }
        else
          { st with current := st.current ++ ['\\', c], pending := false }
      else
        -- unreachable in the source (inQuote is only ', " or none)
        psStepN { st with current := st.current ++ ['\\'], pending := false } c
    | none =>
      -- outside quotes the next character is emitted without the backslash
      { st with result := st.result ++ [c], pending := false }
  else psStepN st c

/-- End of input: a dangling backslash is emitted literally, then
`StringState::finish` flushes `current_part` and rejects an open quote. -/
def psFinish (st : PSState) : Except LexError (List Char) :=
  let st' :=
    if st.pending then
      match st.inQuote with
      | some _ => { st with current := st.current ++ ['\\'], pending := false }
      | none => { st with result := st.result ++ ['\\'], pending := false }
    else st
  let res :=
    if st'.current ≠ [] then
      match st'.inQuote with
      | some q => st'.result ++ finishQuotePart q st'.current
      | none => st'.result ++ st'.current
    else st'.result
  if st'.inQuote.isSome then .error .unclosedQuote else .ok res

/-- `process_string` (src/strings.rs): processes one raw token according to
shell quoting rules. -/
def process_string (s : List Char) : Except LexError (List Char) :=
  psFinish (s.foldl psStep psInit)

/-! ## `tokenize` (src/shell/value.rs, identical copies in
src/shell/lexer.rs and src/token.rs)

Splits the raw line into raw tokens at unquoted unescaped whitespace
(quote characters and backslash pairs are kept in the raw token), then runs
`process_string` over each raw token. -/

structure TKState where
  tokens : List (List Char)
  current : List Char
  inQuote : Option Char
  escaped : Bool
deriving DecidableEq, Repr

def tkInit : TKState := ⟨[], [], none, false⟩

/-- One step of `tokenize`'s loop over the input characters. -/
def tkStep (st : TKState) (c : Char) : TKState :=
  if st.escaped then
    { st with current := st.current ++ ['\\', c], escaped := false }
  else if c = '\\' then
    { st with escaped := true }
  else if st.inQuote = none ∧ (c = '\'' ∨ c = '"') then
    { st with inQuote := some c, current := st.current ++ [c] }
  else if st.inQuote = some c then
    { st with inQuote := none, current := st.current ++ [c] }
  else if st.inQuote = none ∧ (c = ' ' ∨ c = '\t') then
    if st.current ≠ [] then
      { st with tokens := st.tokens ++ [st.current], current := [] }
    else st
  else
    { st with current := st.current ++ [c] }

/-- The tokenizer state after consuming the whole line. -/
def lexState (s : List Char) : TKState := s.foldl tkStep tkInit

/-- The raw-token phase of `tokenize`: trailing escape and unclosed quote are
rejected, the last partial token is flushed. -/
def rawTokens (s : List Char) : Except LexError (List (List Char)) :=
  if (lexState s).escaped then .error .trailingEscape
  else if (lexState s).inQuote.isSome then .error .unclosedQuote
  else .ok ((lexState s).tokens ++
    if (lexState s).current ≠ [] then [(lexState s).current] else [])

/-- `tokenize` (src/shell/value.rs): raw tokens, each post-processed by
`process_string`. -/
def tokenize (s : List Char) : Except LexError (List (List Char)) :=
  (rawTokens s).bind (fun ts => ts.mapM process_string)

/-! ## Quote/escape tracking

`tokenize` tracks `(in_quote, escaped)` and `process_string` tracks
`(in_quote, pending backslash)`.  On every reachable state the two evolve
identically; `qpStep` is that common abstract transition. -/

/-- States reachable by the quote trackers: no quote, single quote, or
double quote. -/
def QOK (q : Option Char) : Prop := q = none ∨ q = some '\'' ∨ q = some '"'

instance (q : Option Char) : Decidable (QOK q) := by unfold QOK; infer_instance

/-- Abstract transition of the `(in_quote, escape-pending)` pair shared by
`tkStep` and `psStep`. -/
def qpStep : Option Char × Bool → Char → Option Char × Bool
  | (q, true), _ => (q, false)
  | (q, false), c =>
    if q = none ∧ (c = '\'' ∨ c = '"') then (some c, false)
    else if q = some c then (none, false)
    else if c = '\\' then (q, true)
    else (q, false)

/-- The abstract machine run from the fresh state. -/
def qpRun (s : List Char) : Option Char × Bool :=
  s.foldl qpStep (none, false)

/-- The raw token being built, together with a pending backslash if the
tokenizer is in escaped state (that backslash has been consumed from the
input but not yet pushed into the token). -/
def curPend (st : TKState) : List Char :=
  st.current ++ (if st.escaped then ['\\'] else [])

/-- Invariant of the `tokenize` loop: every emitted raw token leaves the
quote machine closed, and the machine state on the token in progress is the
tokenizer's own `(in_quote, escaped)` state. -/
structure TKInv (st : TKState) : Prop where
  toksOK : ∀ t ∈ st.tokens, (qpRun t).1 = none
  curOK : qpRun (curPend st) = (st.inQuote, st.escaped)

/-! ## The driver loop (src/main.rs, `main`)

After reading a line the driver executes
`line.split("|").map(|s| s.trim().to_string())` — a *character level* split
on `|`, performed before any lexing. -/

/-- ASCII fragment of Rust `char::is_whitespace` (the inputs of interest are
ASCII; the Unicode-only whitespace code points are not modelled). -/
def isRustWs (c : Char) : Bool :=
  c = ' ' ∨ c = '\t' ∨ c = '\n' ∨ c = '\r'

/-- Rust `str::trim`: remove leading and trailing whitespace. -/
def trimChars (l : List Char) : List Char :=
  ((l.dropWhile isRustWs).reverse.dropWhile isRustWs).reverse

/-- Rust `str::split` with a one-character pattern: every occurrence of the
separator splits, wherever it is. -/
def splitChar (sep : Char) : List Char → List (List Char)
  | [] => [[]]
  | c :: rest =>
    if c = sep then [] :: splitChar sep rest
    else
      match splitChar sep rest with
      | [] => [[c]]
      | t :: ts => (c :: t) :: ts

/-- The pipeline stages the driver loop produces from a raw input line:
`line.split("|").map(trim)`. -/
def mainStages (line : List Char) : List (List Char) :=
  (splitChar '|' line).map trimChars

/-! ## `get_redirect` (src/main.rs)

Finds the first argument word equal to one of the operator words, then
*indexes* `args[pos + 1]` for the target: when the operator is the last
word the index is out of bounds and the program panics (modelled as
`.error ()`). -/

/-- Rust `Iterator::position`. -/
def position (p : List Char → Bool) : List (List Char) → Option Nat
  | [] => none
  | a :: rest => if p a then some 0 else (position p rest).map (· + 1)

/-- `get_redirect` (src/main.rs): extracts the first redirection operator in
`redirect_pipes` together with its following target word, removing both from
the argument vector.  `.error ()` models the out-of-bounds panic of
`args[pos + 1]`. -/
def get_redirect (args redirect_pipes : List (List Char)) :
    Except Unit (Option (List Char) × List (List Char)) :=
  match position (fun x => decide (x ∈ redirect_pipes)) args with
  | none => .ok (none, args)
  | some pos =>
    if h : pos + 1 < args.length then
      .ok (some (args.get ⟨pos + 1, h⟩), (args.eraseIdx (pos + 1)).eraseIdx pos)
    else .error ()

/-! ## File opening for redirection targets

Two distinct openers exist in the source:
`open_file_create_dirs` (src/shell/execution.rs, an identical copy in
src/execution.rs) and `checks_redirects` (src/main.rs).  We model an opener
as the pair (parent directories created?, `OpenOptions` flags) and give the
flags a contents semantics (`openResult`, `writeEffect`). -/

/-- The flag set of Rust `std::fs::OpenOptions` (all false in
`OpenOptions::new()`). -/
structure OpenOptions where
  read : Bool := false
  write : Bool := false
  create : Bool := false
  append : Bool := false
  truncate : Bool := false
deriving DecidableEq, Repr

/-- `open_file_create_dirs` (src/shell/execution.rs lines 44-59):
`create_dir_all` on the parent, then open with
`.read(true).write(true).create(true).append(append)`.  First component:
parent directories are created.  Note that `truncate` is never set. -/
def open_file_create_dirs (append : Bool) : Bool × OpenOptions :=
  (true, { read := true, write := true, create := true, append := append })

/-- `checks_redirects` (src/main.rs lines 481-505): an append path takes
precedence and opens `.create(true).append(true).truncate(false)`; otherwise
a redirect path opens `.create(true).append(false).write(true)
.truncate(true)`; no parent directory is ever created (second component
false). -/
def checks_redirects (redirect_path append_path : Option (List Char)) :
    Option (List Char × Bool × OpenOptions) :=
  match append_path with
  | some p => some (p, false, { create := true, append := true, truncate := false })
  | none =>
    match redirect_path with
    | some p =>
        some (p, false, { create := true, append := false, write := true, truncate := true })
    | none => none

/-- Contents of the file immediately after a successful open (`none` both
for "file absent" before and "open failed" after). -/
def openResult (opts : OpenOptions) : Option (List Char) → Option (List Char)
  | none => if opts.create then some [] else none
  | some prior => some (if opts.truncate then [] else prior)

/-- Contents after writing `buf` once from the start position: append mode
writes at the end, otherwise writing starts at offset 0 and overwrites in
place. -/
def writeEffect (opts : OpenOptions) (contents buf : List Char) : List Char :=
  if opts.append then contents ++ buf
  else buf ++ contents.drop buf.length

/-! ## `parse_args` (src/main.rs lines 165-219)

A second, independent word splitter used by the driver loop: trims the
input, strips quote characters, applies escapes, never errors.  The
look-ahead after a backslash inside double quotes is modelled with an
explicit pending marker, as for `process_string`. -/

/-- The unresolved backslash states of `parse_args`: none, a backslash seen
outside quotes (`escaped = true` there), or a backslash seen inside double
quotes whose effect depends on the next character. -/
inductive EscPending where
  | no
  | outside
  | inDouble
deriving DecidableEq, Repr

structure PAState where
  args : List (List Char)
  current : List Char
  inSingle : Bool
  inDouble : Bool
  pend : EscPending
deriving DecidableEq, Repr

def paInit : PAState := ⟨[], [], false, false, .no⟩

/-- The `match c` of `parse_args` (quote toggling, word splitting, default
push). -/
def paStepN (st : PAState) (c : Char) : PAState :=
  if c = '\'' ∧ ¬st.inDouble then { st with inSingle := !st.inSingle }
  else if c = '"' ∧ ¬st.inSingle then { st with inDouble := !st.inDouble }
  else if isRustWs c ∧ ¬st.inSingle ∧ ¬st.inDouble then
    if st.current ≠ [] then { st with args := st.args ++ [st.current], current := [] }
    else st
  else { st with current := st.current ++ [c] }

/-- One step of `parse_args`'s loop. -/
def paStep (st : PAState) (c : Char) : PAState :=
  match st.pend with
  | .outside => { st with current := st.current ++ [c], pend := .no }
  | .inDouble =>
    if c = '"' ∨ c = '\\' then { st with current := st.current ++ [c], pend := .no }
    else paStepN { st with current := st.current ++ ['\\'], pend := .no } c
  | .no =>
    if c = '\\' ∧ ¬st.inSingle then
      if st.inDouble then { st with pend := .inDouble } else { st with pend := .outside }
    else paStepN st c

/-- `parse_args` (src/main.rs): splits one pipeline stage into words.  A
trailing backslash outside quotes is dropped; a trailing backslash inside
double quotes is kept; unclosed quotes are not an error here. -/
def parse_args (input : List Char) : List (List Char) :=
  let st := (trimChars input).foldl paStep paInit
  let st' :=
    match st.pend with
    | .inDouble => { st with current := st.current ++ ['\\'] }
    | _ => st
  st'.args ++ if st'.current ≠ [] then [st'.current] else []

/-- The head of `handle`'s per-stage processing (src/main.rs lines 520-522):
`parse_args` followed by `parsed.remove(0)`.  `Vec::remove` panics when the
vector is empty — modelled as `.error ()`. -/
def handleStageCommand (input : List Char) :
    Except Unit (List Char × List (List Char)) :=
  match parse_args input with
  | [] => .error ()
  | c :: rest => .ok (c, rest)

/-! ## The `Value` argument model (src/shell/value.rs, also src/value.rs)

`Value::from(String)` first tries `parse::<i32>`, then `parse::<f32>`, then
keeps the string.  `i32` parsing is modelled exactly.  For `f32` only the
*acceptance grammar* of `<f32 as FromStr>` is modelled (`f32Parseable`);
the numeric value and `Display` rendering of floats are floating-point
behavior that we deliberately do not model — `ShellValue.float` keeps the
raw characters and no theorem depends on how it displays. -/

/-- Value of a non-empty all-digit string of ASCII digits, else `none`. -/
def digitsVal? (cs : List Char) : Option Nat :=
  if cs ≠ [] ∧ cs.all Char.isDigit then
    some (cs.foldl (fun a c => a * 10 + (c.toNat - '0'.toNat)) 0)
  else none

/-- Rust `<i32 as FromStr>`: optional sign, non-empty digit run, range
check (overflow during accumulation equals a final range check on the
digit value). -/
def parseI32 (cs : List Char) : Option Int :=
  match cs with
  | [] => none
  | c :: rest =>
    if c = '+' then
      (digitsVal? rest).bind fun n =>
        if n ≤ 2147483647 then some (n : Int) else none
    else if c = '-' then
      (digitsVal? rest).bind fun n =>
        if n ≤ 2147483648 then some (-(n : Int)) else none
    else
      (digitsVal? (c :: rest)).bind fun n =>
        if n ≤ 2147483647 then some (n : Int) else none

/-- Strip one leading `+` or `-`. -/
def stripSign : List Char → List Char
  | [] => []
  | c :: r => if c = '+' ∨ c = '-' then r else c :: r

/-- Lower-case an ASCII letter. -/
def asciiLower (c : Char) : Char :=
  if 'A' ≤ c ∧ c ≤ 'Z' then Char.ofNat (c.toNat + 32) else c

/-- The case-insensitive special float words accepted by `<f32 as
FromStr>`. -/
def isInfNanWord (cs : List Char) : Bool :=
  cs.map asciiLower == "inf".data || cs.map asciiLower == "infinity".data ||
    cs.map asciiLower == "nan".data

/-- Split the mantissa from an optional exponent part at the first `e`/`E`. -/
def splitAtExp : List Char → List Char × Option (List Char)
  | [] => ([], none)
  | c :: r =>
    if c = 'e' ∨ c = 'E' then ([], some r)
    else
      let (m, e) := splitAtExp r
      (c :: m, e)

/-- Exponent part: optional sign then a non-empty digit run. -/
def expDigitsOk (l : List Char) : Bool :=
  !(stripSign l).isEmpty && (stripSign l).all Char.isDigit

/-- Mantissa: `digits [. digits*]` or `. digits+` (at least one digit in
total). -/
def mantissaOk (l : List Char) : Bool :=
  match l.dropWhile Char.isDigit with
  | [] => !(l.takeWhile Char.isDigit).isEmpty
  | c :: frac =>
    if c = '.' then
      (!(l.takeWhile Char.isDigit).isEmpty || !frac.isEmpty) && frac.all Char.isDigit
    else false

/-- Acceptance grammar of Rust `<f32 as FromStr>`. -/
def f32Parseable (cs : List Char) : Bool :=
  isInfNanWord (stripSign cs) ||
    (match splitAtExp (stripSign cs) with
     | (m, none) => mantissaOk m
     | (m, some e) => mantissaOk m && expDigitsOk e)

/-- The `Value` enum of src/shell/value.rs restricted to the constructors
reachable from `Value::from` / `FromIterator` (the `Redirection` and `Pipe`
variants are never produced by those constructors and are not needed by any
claim). -/
inductive ShellValue where
  | integer (i : Int)
  | float (raw : List Char)
  | str (s : List Char)
  | array (elems : List ShellValue)
  | anything (s : List Char)

/-- `impl From<String> for Value`: integer parse first, then float parse,
else the string as-is. -/
def valueFromString (w : List Char) : ShellValue :=
  match parseI32 w with
  | some i => .integer i
  | none => if f32Parseable w then .float w else .str w

/-- `impl FromIterator<String> for Value`: empty iterator gives
`Anything("")`, several items give an `Array`, one item is converted
directly. -/
def valueFromIter (ws : List (List Char)) : ShellValue :=
  if ws = [] then .anything []
  else if 1 < ws.length then .array (ws.map valueFromString)
  else valueFromString (ws.headD [])

/-- Rust `i32` `Display`. -/
def intRepr (i : Int) : List Char :=
  if i < 0 then '-' :: (Nat.repr i.natAbs).data else (Nat.repr i.natAbs).data

/-- `itertools::join(" ")`. -/
def joinSpace : List (List Char) → List Char
  | [] => []
  | [x] => x
  | x :: xs => x ++ ' ' :: joinSpace xs

mutual

/-- `impl Display for Value` (`format!("{}", value)`): arrays join their
elements' renderings with single spaces.  The `float` branch keeps the raw
characters; the exact `f32` `Display` output is not modelled and no theorem
relies on it. -/
def displayValue : ShellValue → List Char
  | .integer i => intRepr i
  | .float raw => raw
  | .str s => s
  | .anything s => s
  | .array es => joinSpace (displayList es)

def displayList : List ShellValue → List (List Char)
  | [] => []
  | v :: vs => displayValue v :: displayList vs

end

/-- `Value::get::<String>(index, default)`: array lookup with `try_from`,
empty `Anything` gives the default, non-strings give the default. -/
def valueGetString (v : ShellValue) (index : Nat) (default : List Char) :
    List Char :=
  match v with
  | .array es =>
    match es.get? index with
    | some (.str s) => s
    | some (.anything s) => s
    | _ => default
  | .anything s => if s.isEmpty then default else s
  | .str s => s
  | _ => default

/-- `Value::get::<Integer>(index, default)`. -/
def valueGetInt (v : ShellValue) (index : Nat) (default : Int) : Int :=
  match v with
  | .array es =>
    match es.get? index with
    | some (.integer i) => i
    | _ => default
  | .anything _ => default
  | .integer i => i
  | _ => default

/-! ## The dispatcher `execute` (src/shell/execution.rs lines 203-304)

Environment interaction (`PATH` index, `$HOME`, `set_current_dir`) is
passed in explicitly; OS-side effects (`process::exit`, spawning) become
`ExecOutcome` constructors; `expect` panics become `.panic`. -/

inductive CommandOutput where
  | stdout (s : List Char) (flush : Bool)
  | stderr (s : List Char) (flush : Bool)
  | stdoutAndStderr (o e : List Char) (flush : Bool)
  | noOutput
deriving DecidableEq, Repr

structure CommandResult where
  output : CommandOutput
  exit_code : Int
deriving DecidableEq, Repr

inductive ExecOutcome where
  | builtin (r : CommandResult)
  | exitProcess (code : Int)
  | spawnExternal (name : List Char) (args : List (List Char))
  | panic
deriving DecidableEq, Repr

/-- The environment `execute` reads: the `PATH` index, `$HOME`, the current
working directory. -/
structure ShellEnv where
  pathMap : List (List Char × List Char)
  home : Option (List Char)
  cwd : List Char
deriving DecidableEq, Repr

/-- The builtin list of src/shell/execution.rs. -/
def BUILTINS : List (List Char) :=
  ["echo".data, "type".data, "exit".data, "pwd".data, "cd".data]

/-- `HashMap::get` on the PATH index (keys are distinct by construction). -/
def lookupAssoc : List (List Char × List Char) → List Char → Option (List Char)
  | [], _ => none
  | (k, v) :: rest, key => if k = key then some v else lookupAssoc rest key

/-- The path the `cd` builtin attempts to change to:
`value.get(0, "~").replace("~", &home)`. -/
def replaceTilde (home : List Char) : List Char → List Char
  | [] => []
  | c :: rest => (if c = '~' then home else [c]) ++ replaceTilde home rest

def cdAttempted (args : List (List Char)) (home : List Char) : List Char :=
  replaceTilde home (valueGetString (valueFromIter args) 0 "~".data)

/-- `execute` (src/shell/execution.rs): builtin dispatch.  `chdirOk` models
`env::set_current_dir` succeeding on a given path. -/
def executeM (env : ShellEnv) (chdirOk : List Char → Bool)
    (params : List (List Char)) : ExecOutcome :=
  match params with
  | [] => .panic
  | name :: args =>
    if name = [] then .builtin ⟨.noOutput, 0⟩
    else if name = "exit".data then .exitProcess (valueGetInt (valueFromIter args) 0 0)
    else if name = "echo".data then
      .builtin ⟨.stdout (displayValue (valueFromIter args)) false, 0⟩
    else if name = "type".data then
      if BUILTINS.contains (valueGetString (valueFromIter args) 0 []) then
        .builtin ⟨.stdout (valueGetString (valueFromIter args) 0 [] ++
          " is a shell builtin".data) false, 0⟩
      else
        match lookupAssoc env.pathMap (valueGetString (valueFromIter args) 0 []) with
        | some p => .builtin ⟨.stdout (valueGetString (valueFromIter args) 0 [] ++
            " is ".data ++ p) false, 0⟩
        | none => .builtin ⟨.stderr (valueGetString (valueFromIter args) 0 [] ++
            ": not found".data) false, 1⟩
    else if name = "pwd".data then .builtin ⟨.stdout env.cwd false, 0⟩
    else if name = "cd".data then
      match env.home with
      | none => .panic
      | some home =>
        if chdirOk (cdAttempted args home) then .builtin ⟨.noOutput, 0⟩
        else .builtin ⟨.stderr ("cd: ".data ++ cdAttempted args home ++
            ": No such file or directory".data) false, 1⟩
    else
      match lookupAssoc env.pathMap name with
      | none => .builtin ⟨.stderr (name ++ ": command not found\n".data) true, 127⟩
      | some _ => .spawnExternal name args

/-! ### Lemmas about the value model -/

/-! ## `finalize_executions` (src/shell/execution.rs lines 144-201)

A child process is abstracted by the outcomes of its two wait operations:
`wait()` (used for intermediate stages) and `wait_with_output()` (used for
the terminal stage); the error payload is the formatted message text. -/

structure ExtProc where
  wait : Except (List Char) Unit
  waitWithOutput : Except (List Char) (List Char × List Char × Option Int)
deriving DecidableEq, Repr

/-- `ExecutionOutput`: an already-finished builtin or a live child. -/
inductive StageHandle where
  | builtin (r : CommandResult)
  | external (p : ExtProc)
deriving DecidableEq, Repr

/-- The terminal-stage arm of `finalize_executions`: a builtin's result is
already in hand; an external is drained with `wait_with_output` and its
captured stdout/stderr and exit status (defaulting to 0) are returned. -/
def finalizeTerminal : StageHandle → CommandResult
  | .builtin r => r
  | .external p =>
    match p.waitWithOutput with
    | .error e =>
      ⟨.stderr ("Retrieving output error: ".data ++ e ++ "\n".data) true, 1⟩
    | .ok (o, er, status) => ⟨.stdoutAndStderr o er true, status.getD 0⟩

/-- `finalize_executions`: empty list gives a no-output result; the last
handle is finalized as terminal; an intermediate builtin is skipped; an
intermediate external is waited on, and a wait *error* returns immediately
with exit code 1, abandoning the remaining stages. -/
def finalize_executions : List StageHandle → CommandResult
  | [] => ⟨.noOutput, 0⟩
  | [last] => finalizeTerminal last
  | .builtin _ :: r :: rest => finalize_executions (r :: rest)
  | .external p :: r :: rest =>
    match p.wait with
    | .error e =>
      ⟨.stderr ("Error waiting for intermediate command: ".data ++ e ++ "\n".data)
        true, 1⟩
    | .ok _ => finalize_executions (r :: rest)

/-- A stage whose intermediate wait succeeds (builtins trivially). -/
def waitOkB : StageHandle → Bool
  | .builtin _ => true
  | .external p => decide (p.wait = .ok ())

/-! ## Pipe endpoint transfer in `handle` (src/main.rs lines 509-552)

`handle` creates `inputs.len() - 1` pipes as vectors of `Option` slots and
moves each endpoint out with `.take().expect(..)` (the same take-once
discipline as `RW::RPipe`/`RW::WPipe` in src/shell/rw.rs).  Stage `i` takes
reader `i - 1` (stage 0 inherits stdin) and takes writer `i` unless the
stage has a stdout redirection or is the last stage.  Slots are modelled as
`Nat → Bool` (true = endpoint still present); `.error ()` models the
`expect` panic on an empty or missing slot. -/

def takeOnce (bound : Nat) (f : Nat → Bool) (i : Nat) : Except Unit (Nat → Bool) :=
  if i < bound ∧ f i = true then .ok (fun j => if j = i then false else f j)
  else .error ()

/-- The dispatch loop of `handle` over stages `i, i+1, …` with `fuel`
stages remaining: wire the reader and writer slots for each stage in
order. -/
def handleDispatchLoop (n : Nat) (redir : Nat → Bool) :
    Nat → Nat → (Nat → Bool) → (Nat → Bool) →
      Except Unit ((Nat → Bool) × (Nat → Bool))
  | 0, _, rs, ws => .ok (rs, ws)
  | fuel + 1, i, rs, ws =>
    match (if i = 0 then Except.ok rs else takeOnce (n - 1) rs (i - 1) :
        Except Unit (Nat → Bool)) with
    | .error e => .error e
    | .ok rs' =>
      match (if redir i then Except.ok ws
             else if i + 1 = n then Except.ok ws
             else takeOnce (n - 1) ws i : Except Unit (Nat → Bool)) with
      | .error e => .error e
      | .ok ws' => handleDispatchLoop n redir fuel (i + 1) rs' ws'

/-- Dispatch of an `n`-stage pipeline where `redir i` says whether stage `i`
carries a stdout redirection; returns the slots the parent still holds. -/
def handleDispatch (n : Nat) (redir : Nat → Bool) :
    Except Unit ((Nat → Bool) × (Nat → Bool)) :=
  handleDispatchLoop n redir n 0 (fun _ => true) (fun _ => true)

/-! ## Helper lemmas -/

lemma qpStep_qok {q : Option Char} {p : Bool} (h : QOK q) (c : Char) :
    QOK (qpStep (q, p) c).1 := by
  rcases p with _ | _
  · simp only [qpStep]
    split_ifs with h1 h2 h3
    · rcases h1 with ⟨_, hc | hc⟩ <;> subst hc <;> simp [QOK]
    · exact Or.inl rfl
    · exact h
    · exact h
  · exact h

lemma qpRun_qok (s : List Char) : QOK (qpRun s).1 := by
  suffices h : ∀ (st : Option Char × Bool), QOK st.1 → QOK (s.foldl qpStep st).1 by
    exact h (none, false) (Or.inl rfl)
  induction s with
  | nil => intro st h; exact h
  | cons c rest ih =>
    intro st h
    exact ih (qpStep st c) (by rcases st with ⟨q, p⟩; exact qpStep_qok h c)

/-- `tkStep` refines the abstract machine on reachable states. -/
lemma tkStep_qp (st : TKState) (c : Char) (h : QOK st.inQuote) :
    ((tkStep st c).inQuote, (tkStep st c).escaped) =
      qpStep (st.inQuote, st.escaped) c := by
  rcases st with ⟨toks, cur, q, e⟩
  rcases e with _ | _ <;>
    · simp only [tkStep, qpStep]
      split_ifs <;>
        first
        | rfl
        | (exfalso; rcases h with h | h | h <;> simp_all)

/-- `psStep` refines the abstract machine on reachable states. -/
lemma psStep_qp (st : PSState) (c : Char) (h : QOK st.inQuote) :
    ((psStep st c).inQuote, (psStep st c).pending) =
      qpStep (st.inQuote, st.pending) c := by
  rcases st with ⟨res, cur, q, p⟩
  rcases p with _ | _
  · -- pending = false: psStep = psStepN
    simp only [psStep, psStepN, qpStep]
    split_ifs with h1 h2 h3 h4 <;> simp_all
  · -- pending = true
    rcases h with h | h | h <;> subst h <;>
      simp only [psStep, qpStep] <;> split_ifs <;> rfl

/-- The `(in_quote, pending)` pair of a `process_string` run is computed by
the abstract machine. -/
lemma psFold_qp (t : List Char) :
    ∀ (st : PSState), QOK st.inQuote →
      ((t.foldl psStep st).inQuote, (t.foldl psStep st).pending) =
        (t.foldl qpStep (st.inQuote, st.pending)) := by
  induction t with
  | nil => intro st _; rfl
  | cons c rest ih =>
    intro st h
    have hstep := psStep_qp st c h
    have hq : QOK (psStep st c).inQuote := by
      have := qpStep_qok (p := st.pending) h c
      rw [← hstep] at this
      exact this
    simp only [List.foldl_cons]
    rw [ih (psStep st c) hq, hstep]

/-- The `(in_quote, pending)` pair of `process_string` on `t` from the fresh
state. -/
lemma psRun_qp (t : List Char) :
    ((t.foldl psStep psInit).inQuote, (t.foldl psStep psInit).pending) = qpRun t :=
  psFold_qp t psInit (Or.inl rfl)

/-- `psFinish` succeeds exactly on states outside any quote. -/
lemma psFinish_ok_iff (st : PSState) :
    (∃ w, psFinish st = .ok w) ↔ st.inQuote = none := by
  rcases st with ⟨res, cur, q, p⟩
  rcases q with _ | q
  · simp only [psFinish]
    constructor
    · intro _; trivial
    · intro _
      rcases p with _ | _ <;> simp
  · simp only [psFinish]
    constructor
    · rintro ⟨w, hw⟩
      rcases p with _ | _ <;> simp at hw
    · intro h; cases h

/-- `process_string` succeeds exactly when the abstract machine ends outside
any quote. -/
lemma process_string_ok_iff (t : List Char) :
    (∃ w, process_string t = .ok w) ↔ (qpRun t).1 = none := by
  have hqp := psRun_qp t
  unfold process_string
  rw [psFinish_ok_iff]
  rw [← hqp]

lemma qpRun_append_one (l : List Char) (c : Char) :
    qpRun (l ++ [c]) = qpStep (qpRun l) c := by
  simp [qpRun, List.foldl_append]

lemma tkInv_init : TKInv tkInit :=
  ⟨fun t ht => absurd ht (List.not_mem_nil t), rfl⟩

lemma TKInv.qok {st : TKState} (h : TKInv st) : QOK st.inQuote := by
  have h1 := qpRun_qok (curPend st)
  rw [h.curOK] at h1
  exact h1

lemma tkInv_step (st : TKState) (c : Char) (h : TKInv st) : TKInv (tkStep st c) := by
  have hqok : QOK st.inQuote := h.qok
  have hcur := h.curOK
  unfold tkStep
  split_ifs with h1 h2 h3 h4 h5 h6
  · -- escaped: push the pending backslash and c
    refine ⟨h.toksOK, ?_⟩
    have hc : qpRun (st.current ++ ['\\']) = (st.inQuote, true) := by
      simpa [curPend, h1] using hcur
    have key : curPend { st with current := st.current ++ ['\\', c], escaped := false } =
        (st.current ++ ['\\']) ++ [c] := by
      simp [curPend]
    rw [key, qpRun_append_one, hc]
    rfl
  · -- backslash: set escaped
    have he : st.escaped = false := by simpa using h1
    refine ⟨h.toksOK, ?_⟩
    have hc : qpRun st.current = (st.inQuote, false) := by
      simpa [curPend, he] using hcur
    have key : curPend { st with escaped := true } = st.current ++ ['\\'] := by
      simp [curPend]
    rw [key, qpRun_append_one, hc]
    rcases hqok with hq | hq | hq <;> simp [qpStep, hq]
  · -- opening quote
    have he : st.escaped = false := by simpa using h1
    refine ⟨h.toksOK, ?_⟩
    have hc : qpRun st.current = (st.inQuote, false) := by
      simpa [curPend, he] using hcur
    have key : curPend { st with inQuote := some c, current := st.current ++ [c] } =
        st.current ++ [c] := by
      simp [curPend, he]
    rw [key, qpRun_append_one, hc]
    simp [qpStep, h3.1, h3.2, he]
  · -- closing quote
    have he : st.escaped = false := by simpa using h1
    refine ⟨h.toksOK, ?_⟩
    have hc : qpRun st.current = (st.inQuote, false) := by
      simpa [curPend, he] using hcur
    have key : curPend { st with inQuote := none, current := st.current ++ [c] } =
        st.current ++ [c] := by
      simp [curPend, he]
    rw [key, qpRun_append_one, hc, h4]
    simp [qpStep, he]
  · -- whitespace, current token nonempty: emit it
    have he : st.escaped = false := by simpa using h1
    have hc : qpRun st.current = (st.inQuote, false) := by
      simpa [curPend, he] using hcur
    constructor
    · intro t ht
      rcases List.mem_append.mp ht with ht | ht
      · exact h.toksOK t ht
      · have ht' : t = st.current := by simpa using ht
        subst ht'
        rw [hc, h5.1]
    · have key : curPend { st with tokens := st.tokens ++ [st.current], current := [] } =
          ([] : List Char) := by
        simp [curPend, he]
      rw [key]
      show (none, false) = (st.inQuote, st.escaped)
      rw [h5.1, he]
  · -- whitespace, current token empty: nothing happens
    exact h
  · -- ordinary character: push it
    have he : st.escaped = false := by simpa using h1
    refine ⟨h.toksOK, ?_⟩
    have hc : qpRun st.current = (st.inQuote, false) := by
      simpa [curPend, he] using hcur
    have key : curPend { st with current := st.current ++ [c] } = st.current ++ [c] := by
      simp [curPend, he]
    rw [key, qpRun_append_one, hc]
    show qpStep (st.inQuote, false) c = (st.inQuote, st.escaped)
    simp only [qpStep]
    rw [if_neg h3, if_neg h4, if_neg h2, he]

lemma tkInv_fold (s : List Char) : TKInv (lexState s) := by
  have : ∀ (l : List Char) (st : TKState), TKInv st → TKInv (l.foldl tkStep st) := by
    intro l
    induction l with
    | nil => intro st h; exact h
    | cons c rest ih => intro st h; exact ih (tkStep st c) (tkInv_step st c h)
  exact this s tkInit tkInv_init

lemma mapM_ok {α β γ : Type} (f : α → Except γ β) :
    ∀ (ts : List α), (∀ t ∈ ts, ∃ w, f t = .ok w) → ∃ ws, ts.mapM f = .ok ws := by
  intro ts
  induction ts with
  | nil => intro _; exact ⟨[], rfl⟩
  | cons t rest ih =>
    intro h
    obtain ⟨w, hw⟩ := h t (List.mem_cons_self t rest)
    obtain ⟨ws, hws⟩ := ih (fun t' ht' => h t' (List.mem_cons_of_mem t ht'))
    refine ⟨w :: ws, ?_⟩
    rw [List.mapM_cons, hw, hws]
    rfl

lemma splitChar_ne_nil (sep : Char) (l : List Char) : splitChar sep l ≠ [] := by
  cases l with
  | nil => simp [splitChar]
  | cons c rest =>
    rw [splitChar]
    split_ifs
    · simp
    · rcases hsc : splitChar sep rest with _ | ⟨t, ts⟩ <;> simp

lemma splitChar_length (sep : Char) (l : List Char) :
    (splitChar sep l).length = l.count sep + 1 := by
  induction l with
  | nil => simp [splitChar]
  | cons c rest ih =>
    rw [splitChar]
    by_cases hc : c = sep
    · rw [if_pos hc]
      simp only [List.length_cons, List.count_cons, ih, hc]
      simp
    · rw [if_neg hc]
      rcases hsc : splitChar sep rest with _ | ⟨t, ts⟩
      · exact absurd hsc (splitChar_ne_nil sep rest)
      · have hlen : (t :: ts).length = rest.count sep + 1 := by rw [← hsc]; exact ih
        simp only [List.length_cons, List.count_cons] at hlen ⊢
        simp [hc]
        omega

lemma position_eq_none {p : List Char → Bool} {args : List (List Char)}
    (h : ∀ a ∈ args, p a = false) : position p args = none := by
  induction args with
  | nil => rfl
  | cons a rest ih =>
    rw [position, if_neg (by simp [h a (List.mem_cons_self a rest)]),
      ih (fun a' ha' => h a' (List.mem_cons_of_mem a ha'))]
    rfl

lemma displayList_eq_map (es : List ShellValue) :
    displayList es = es.map displayValue := by
  induction es with
  | nil => rfl
  | cons v vs ih => rw [displayList, List.map_cons, ih]

lemma digitsVal?_eq_none_of_tilde {w : List Char} (h : '~' ∈ w) :
    digitsVal? w = none := by
  unfold digitsVal?
  rw [if_neg]
  rintro ⟨-, hall⟩
  exact absurd (List.all_eq_true.mp hall '~' h) (by decide)

lemma mem_stripSign_of_tilde {w : List Char} (h : '~' ∈ w) :
    '~' ∈ stripSign w := by
  rcases w with _ | ⟨c, r⟩
  · cases h
  · rw [stripSign]
    split_ifs with hc
    · rcases List.mem_cons.mp h with h0 | h0
      · exfalso
        rcases hc with hc | hc <;> rw [hc] at h0 <;> exact absurd h0 (by decide)
      · exact h0
    · exact h

lemma parseI32_eq_none_of_tilde {w : List Char} (h : '~' ∈ w) :
    parseI32 w = none := by
  rcases w with _ | ⟨c, r⟩
  · rfl
  · rw [parseI32]
    split_ifs with h1 h2
    · have hr : '~' ∈ r := by
        rcases List.mem_cons.mp h with h0 | h0
        · exfalso; rw [h1] at h0; exact absurd h0 (by decide)
        · exact h0
      rw [digitsVal?_eq_none_of_tilde hr]
      rfl
    · have hr : '~' ∈ r := by
        rcases List.mem_cons.mp h with h0 | h0
        · exfalso; rw [h2] at h0; exact absurd h0 (by decide)
        · exact h0
      rw [digitsVal?_eq_none_of_tilde hr]
      rfl
    · rw [digitsVal?_eq_none_of_tilde h]
      rfl

lemma splitAtExp_tilde {w : List Char} (h : '~' ∈ w) :
    '~' ∈ (splitAtExp w).1 ∨ ∃ e, (splitAtExp w).2 = some e ∧ '~' ∈ e := by
  induction w with
  | nil => cases h
  | cons c r ih =>
    rw [splitAtExp]
    split_ifs with hc
    · right
      refine ⟨r, rfl, ?_⟩
      rcases List.mem_cons.mp h with h0 | h0
      · exfalso
        rcases hc with hc | hc <;> rw [hc] at h0 <;> exact absurd h0 (by decide)
      · exact h0
    · rcases hsp : splitAtExp r with ⟨m, e⟩
      simp only [hsp]
      rcases List.mem_cons.mp h with h0 | h0
      · left
        exact h0 ▸ List.mem_cons_self c m
      · rcases ih h0 with hm | ⟨e', he', hme⟩
        · left
          rw [hsp] at hm
          exact List.mem_cons_of_mem c hm
        · right
          rw [hsp] at he'
          exact ⟨e', he', hme⟩

lemma mantissaOk_false_of_tilde {m : List Char} (h : '~' ∈ m) :
    mantissaOk m = false := by
  unfold mantissaOk
  rcases hd : m.dropWhile Char.isDigit with _ | ⟨c, frac⟩
  · exfalso
    have hsplit := List.takeWhile_append_dropWhile (p := Char.isDigit) (l := m)
    rw [hd, List.append_nil] at hsplit
    rw [← hsplit] at h
    exact absurd (List.mem_takeWhile_imp h) (by decide)
  · show (if c = '.' then
        (!(m.takeWhile Char.isDigit).isEmpty || !frac.isEmpty) && frac.all Char.isDigit
      else false) = false
    split_ifs with hc
    · have hsplit := List.takeWhile_append_dropWhile (p := Char.isDigit) (l := m)
      rw [hd] at hsplit
      rw [← hsplit] at h
      rcases List.mem_append.mp h with hm | hm
      · exact absurd (List.mem_takeWhile_imp hm) (by decide)
      · rcases List.mem_cons.mp hm with h0 | h0
        · exfalso; rw [hc] at h0; exact absurd h0 (by decide)
        · have hall : frac.all Char.isDigit = false := by
            rcases hall : frac.all Char.isDigit with _ | _
            · rfl
            · exact absurd (List.all_eq_true.mp hall '~' h0) (by decide)
          rw [hall]
          simp
    · rfl

lemma expDigitsOk_false_of_tilde {e : List Char} (h : '~' ∈ e) :
    expDigitsOk e = false := by
  have hs : '~' ∈ stripSign e := mem_stripSign_of_tilde h
  unfold expDigitsOk
  have hall : (stripSign e).all Char.isDigit = false := by
    rcases hall : (stripSign e).all Char.isDigit with _ | _
    · rfl
    · exact absurd (List.all_eq_true.mp hall '~' hs) (by decide)
  rw [hall]
  simp

lemma isInfNanWord_false_of_tilde {b : List Char} (h : '~' ∈ b) :
    isInfNanWord b = false := by
  have hl : '~' ∈ b.map asciiLower := List.mem_map.mpr ⟨'~', h, by decide⟩
  unfold isInfNanWord
  have h1 : (b.map asciiLower == "inf".data) = false := by
    apply beq_eq_false_iff_ne.mpr
    intro he; rw [he] at hl; exact absurd hl (by decide)
  have h2 : (b.map asciiLower == "infinity".data) = false := by
    apply beq_eq_false_iff_ne.mpr
    intro he; rw [he] at hl; exact absurd hl (by decide)
  have h3 : (b.map asciiLower == "nan".data) = false := by
    apply beq_eq_false_iff_ne.mpr
    intro he; rw [he] at hl; exact absurd hl (by decide)
  rw [h1, h2, h3]
  rfl

lemma f32Parseable_false_of_tilde {w : List Char} (h : '~' ∈ w) :
    f32Parseable w = false := by
  have hb : '~' ∈ stripSign w := mem_stripSign_of_tilde h
  unfold f32Parseable
  rw [isInfNanWord_false_of_tilde hb]
  rcases hsp : splitAtExp (stripSign w) with ⟨m, eopt⟩
  have hcase := splitAtExp_tilde hb
  rw [hsp] at hcase
  rcases eopt with _ | e
  · rcases hcase with hm | ⟨e, he, -⟩
    · have hm' : '~' ∈ m := hm
      show (false || mantissaOk m) = false
      rw [mantissaOk_false_of_tilde hm']
      rfl
    · cases he
  · rcases hcase with hm | ⟨e', he, hme⟩
    · have hm' : '~' ∈ m := hm
      show (false || (mantissaOk m && expDigitsOk e)) = false
      rw [mantissaOk_false_of_tilde hm']
      rfl
    · have he' : e' = e := by injection he with he''; exact he''.symm
      subst he'
      show (false || (mantissaOk m && expDigitsOk e')) = false
      rw [expDigitsOk_false_of_tilde hme]
      simp

lemma valueFromString_str {w : List Char} (h1 : parseI32 w = none)
    (h2 : f32Parseable w = false) : valueFromString w = .str w := by
  unfold valueFromString
  rw [h1, h2]
  rfl

lemma replaceTilde_eq_flatten (home l : List Char) :
    replaceTilde home l = (l.map (fun c => if c = '~' then home else [c])).flatten := by
  induction l with
  | nil => rfl
  | cons c r ih =>
    simp [replaceTilde, List.flatten, ih]

/-- Echo's rendering of arguments that survive numeric parsing untouched is
exactly the space-join. -/
lemma display_fromIter_nonnumeric (args : List (List Char))
    (h : ∀ w ∈ args, parseI32 w = none ∧ f32Parseable w = false) :
    displayValue (valueFromIter args) = joinSpace args := by
  unfold valueFromIter
  by_cases h0 : args = []
  · subst h0
    rfl
  · rw [if_neg h0]
    by_cases h1 : 1 < args.length
    · rw [if_pos h1, displayValue, displayList_eq_map, List.map_map]
      congr 1
      have hcong : ∀ w ∈ args, (displayValue ∘ valueFromString) w = id w := by
        intro w hw
        have h2 := h w hw
        simp only [Function.comp, id]
        rw [valueFromString_str h2.1 h2.2]
        rfl
      rw [List.map_congr_left hcong, List.map_id]
    · rw [if_neg h1]
      rcases args with _ | ⟨w, rest⟩
      · exact absurd rfl h0
      · have hr : rest = [] := by
          rcases rest with _ | ⟨x, xs⟩
          · rfl
          · exfalso
            apply h1
            simp only [List.length_cons]
            omega
        subst hr
        have hw := h w (List.mem_cons_self w [])
        show displayValue (valueFromString w) = joinSpace [w]
        rw [valueFromString_str hw.1 hw.2]
        rfl

lemma handleDispatchLoop_step (n : Nat) (redir : Nat → Bool) (fuel i : Nat)
    (rs ws rsN wsN : Nat → Bool)
    (h1 : (if i = 0 then Except.ok rs else takeOnce (n - 1) rs (i - 1)) = .ok rsN)
    (h2 : (if redir i then Except.ok ws
           else if i + 1 = n then Except.ok ws
           else takeOnce (n - 1) ws i) = .ok wsN) :
    handleDispatchLoop n redir (fuel + 1) i rs ws =
      handleDispatchLoop n redir fuel (i + 1) rsN wsN := by
  simp only [handleDispatchLoop]
  rw [h1, h2]

/-- Invariant-carrying run of the dispatch loop: readers `0..i-2` and the
writers of already-dispatched non-redirected stages are consumed; the loop
never hits an empty slot and ends with all readers consumed and exactly the
redirected middle stages' writers retained. -/
lemma handleDispatchLoop_spec (n : Nat) (redir : Nat → Bool) :
    ∀ (fuel i : Nat) (rs ws : Nat → Bool), i + fuel = n →
      (∀ j, j < n - 1 → rs j = !decide (j + 1 < i)) →
      (∀ j, j < n - 1 → ws j = (redir j || !decide (j < i))) →
      ∃ rsF wsF, handleDispatchLoop n redir fuel i rs ws = .ok (rsF, wsF) ∧
        (∀ j, j < n - 1 → rsF j = false) ∧
        (∀ j, j < n - 1 → wsF j = redir j) := by
  intro fuel
  induction fuel with
  | zero =>
    intro i rs ws hi hr hw
    refine ⟨rs, ws, rfl, ?_, ?_⟩
    · intro j hj
      rw [hr j hj]
      have hji : j + 1 < i := by omega
      simp [hji]
    · intro j hj
      rw [hw j hj]
      have hji : j < i := by omega
      simp [hji]
  | succ fuel ih =>
    intro i rs ws hi hr hw
    obtain ⟨rsN, h1, hrN⟩ :
        ∃ rsN, (if i = 0 then Except.ok rs else takeOnce (n - 1) rs (i - 1)) =
            .ok rsN ∧
          ∀ j, j < n - 1 → rsN j = !decide (j + 1 < i + 1) := by
      by_cases hi0 : i = 0
      · refine ⟨rs, by rw [if_pos hi0], ?_⟩
        intro j hj
        rw [hr j hj]
        subst hi0
        have hd : decide (j + 1 < 0) = decide (j + 1 < 0 + 1) :=
          decide_eq_decide.mpr (by omega)
        rw [hd]
      · have hcond : rs (i - 1) = true := by
          rw [hr (i - 1) (by omega)]
          have hlt : ¬(i - 1 + 1 < i) := by omega
          simp [hlt]
        refine ⟨fun j => if j = i - 1 then false else rs j, ?_, ?_⟩
        · rw [if_neg hi0]
          unfold takeOnce
          rw [if_pos ⟨by omega, hcond⟩]
        · intro j hj
          show (if j = i - 1 then false else rs j) = !decide (j + 1 < i + 1)
          by_cases hji : j = i - 1
          · rw [if_pos hji]
            have hlt : j + 1 < i + 1 := by omega
            simp [hlt]
          · rw [if_neg hji, hr j hj]
            have hd : decide (j + 1 < i) = decide (j + 1 < i + 1) :=
              decide_eq_decide.mpr (by omega)
            rw [hd]
    obtain ⟨wsN, h2, hwN⟩ :
        ∃ wsN, (if redir i then Except.ok ws
            else if i + 1 = n then Except.ok ws
            else takeOnce (n - 1) ws i) = .ok wsN ∧
          ∀ j, j < n - 1 → wsN j = (redir j || !decide (j < i + 1)) := by
      by_cases hri : redir i
      · refine ⟨ws, by rw [if_pos hri], ?_⟩
        intro j hj
        rw [hw j hj]
        by_cases hji : j = i
        · subst hji
          simp [hri]
        · have hd : decide (j < i) = decide (j < i + 1) :=
            decide_eq_decide.mpr (by omega)
          rw [hd]
      · rw [if_neg hri]
        by_cases hlast : i + 1 = n
        · refine ⟨ws, by rw [if_pos hlast], ?_⟩
          intro j hj
          rw [hw j hj]
          have hd : decide (j < i) = decide (j < i + 1) :=
            decide_eq_decide.mpr (by omega)
          rw [hd]
        · have hcond : ws i = true := by
            rw [hw i (by omega)]
            have hlt : ¬(i < i) := by omega
            simp [hlt]
          refine ⟨fun j => if j = i then false else ws j, ?_, ?_⟩
          · rw [if_neg hlast]
            unfold takeOnce
            rw [if_pos ⟨by omega, hcond⟩]
          · intro j hj
            show (if j = i then false else ws j) = (redir j || !decide (j < i + 1))
            by_cases hji : j = i
            · subst hji
              rw [if_pos rfl]
              have hrif : redir j = false := by simpa using hri
              simp [hrif]
            · rw [if_neg hji, hw j hj]
              have hd : decide (j < i) = decide (j < i + 1) :=
                decide_eq_decide.mpr (by omega)
              rw [hd]
    rw [handleDispatchLoop_step n redir fuel i rs ws rsN wsN h1 h2]
    exact ih (i + 1) rsN wsN (by omega) hrN hwN

/-- If the tokenizer finishes with no pending escape and no open quote,
`process_string` succeeds on every raw token, so `tokenize` succeeds. -/
lemma tokenize_ok_of_clean (s : List Char) (he : (lexState s).escaped = false)
    (hq : (lexState s).inQuote = none) : ∃ ws, tokenize s = .ok ws := by
  have hinv := tkInv_fold s
  have hraw : rawTokens s =
      .ok ((lexState s).tokens ++
        if (lexState s).current ≠ [] then [(lexState s).current] else []) := by
    unfold rawTokens
    rw [he, hq]
    rfl
  have hall : ∀ t ∈ (lexState s).tokens ++
      (if (lexState s).current ≠ [] then [(lexState s).current] else []),
      ∃ w, process_string t = .ok w := by
    intro t ht
    rcases List.mem_append.mp ht with ht | ht
    · exact (process_string_ok_iff t).mpr (hinv.toksOK t ht)
    · have ht' : t = (lexState s).current := by
        split_ifs at ht with hcne
        · simpa using ht
        · cases ht
      subst ht'
      refine (process_string_ok_iff _).mpr ?_
      have hc : qpRun (lexState s).current = ((lexState s).inQuote, false) := by
        simpa [curPend, he] using hinv.curOK
      rw [hc, hq]
  obtain ⟨ws, hws⟩ := mapM_ok process_string _ hall
  exact ⟨ws, by unfold tokenize; rw [hraw]; exact hws⟩

end Shell

open Shell

/-- C1 (amended): the lexer (`tokenize` followed by `process_string` on
each raw token) succeeds on every line whose final tokenizer state has no
open quote and no pending escape; it fails with `TrailingEscape` whenever
the line ends with the escape flag set — including a trailing backslash
*inside* an open quote — and with `UnclosedQuote` when the escape flag is
clear but a quote is still open at end of input. -/
theorem c1_lexer_success_and_error_characterization (s : List Char) :
    ((lexState s).escaped = true → tokenize s = .error .trailingEscape) ∧
    ((lexState s).escaped = false → (lexState s).inQuote ≠ none →
      tokenize s = .error .unclosedQuote) ∧
    ((lexState s).escaped = false → (lexState s).inQuote = none →
      ∃ ws, tokenize s = .ok ws) := by
  refine ⟨?_, ?_, tokenize_ok_of_clean s⟩
  · intro he
    unfold tokenize rawTokens
    rw [he]
    rfl
  · intro he hq
    unfold tokenize rawTokens
    rw [he]
    have : (lexState s).inQuote.isSome := Option.ne_none_iff_isSome.mp hq
    simp only [this]
    rfl

/-- C1 counterexample: the line `'a\` ends inside an open single quote, so
the claim as stated predicts the `UnclosedQuote` error; the code checks the
escape flag first and reports `TrailingEscape` instead (the trailing
backslash is *inside* quotes, not outside). -/
theorem c1_counterexample_trailing_escape_inside_quote :
    (lexState "'a\\".data).inQuote ≠ none ∧
    tokenize "'a\\".data ≠ .error .unclosedQuote ∧
    tokenize "'a\\".data = .error .trailingEscape := by
  refine ⟨by decide, by decide, by decide⟩

/-- Witness for C1: a concrete balanced line with no trailing backslash on
which the success branch of the theorem applies. -/
theorem c1_witness :
    (lexState "echo 'a b' c".data).escaped = false ∧
    (lexState "echo 'a b' c".data).inQuote = none ∧
    ∃ ws, tokenize "echo 'a b' c".data = .ok ws :=
  ⟨by decide, by decide,
    (c1_lexer_success_and_error_characterization "echo 'a b' c".data).2.2
      (by decide) (by decide)⟩

/-- C2: inside a double-quoted region a backslash escapes only `"` and `\`
(the backslash is dropped and the escaped character kept); before any other
character the backslash is preserved literally.  Stated for both backslash
handlers of the source (`unescape_string` and the double-quote case of
`StringState::handle_backslash`), together with the concrete consequence
that lexing `"hello\nworld"` yields the single word `hello\nworld` with a
literal backslash and letter n. -/
theorem c2_double_quote_backslash_rules :
    (∀ rest : List Char,
      unescape_string ('\\' :: '"' :: rest) = '"' :: unescape_string rest) ∧
    (∀ rest : List Char,
      unescape_string ('\\' :: '\\' :: rest) = '\\' :: unescape_string rest) ∧
    (∀ (c : Char) (rest : List Char), c ≠ '"' → c ≠ '\\' →
      unescape_string ('\\' :: c :: rest) = '\\' :: unescape_string (c :: rest)) ∧
    (∀ (st : PSState) (c : Char), st.pending = true → st.inQuote = some '"' →
      (c = '"' ∨ c = '\\') → (psStep st c).current = st.current ++ [c]) ∧
    (∀ (st : PSState) (c : Char), st.pending = true → st.inQuote = some '"' →
      c ≠ '"' → c ≠ '\\' → (psStep st c).current = st.current ++ ['\\', c]) ∧
    tokenize "\"hello\\nworld\"".data = .ok ["hello\\nworld".data] := by
  refine ⟨?_, ?_, ?_, ?_, ?_, by decide⟩
  · intro rest; simp [unescape_string]
  · intro rest; simp [unescape_string]
  · intro c rest hc1 hc2
    rw [unescape_string]
    · rw [if_neg (by simp [hc1, hc2])]
  · intro st c hp hq hc
    rcases st with ⟨res, cur, q, p⟩
    simp only at hp hq
    subst hp hq
    simp [psStep, hc]
  · intro st c hp hq hc1 hc2
    rcases st with ⟨res, cur, q, p⟩
    simp only at hp hq
    subst hp hq
    simp [psStep, hc1, hc2]

/-- Witness for C2: concrete instances of the hypothesis-bearing parts. -/
theorem c2_witness :
    unescape_string ['\\', 'n', 'x'] = '\\' :: unescape_string ['n', 'x'] ∧
    unescape_string ['\\', '"', 'x'] = '"' :: unescape_string ['x'] ∧
    (psStep ⟨[], "hello".data, some '"', true⟩ 'n').current =
      "hello".data ++ ['\\', 'n'] :=
  ⟨c2_double_quote_backslash_rules.2.2.1 'n' ['x'] (by decide) (by decide),
   c2_double_quote_backslash_rules.1 ['x'],
   c2_double_quote_backslash_rules.2.2.2.2.1 ⟨[], "hello".data, some '"', true⟩ 'n'
     rfl rfl (by decide) (by decide)⟩

/-- C3 counterexample: in `main` the line is split on the raw `|` character
*before* any lexing, so a pipe inside single quotes does split the line:
`echo 'a|b'` becomes the two stages `echo 'a` and `b'` instead of one. -/
theorem c3_counterexample_quoted_pipe_splits :
    mainStages "echo 'a|b'".data = ["echo 'a".data, "b'".data] ∧
    (mainStages "echo 'a|b'".data).length ≠ 1 := by
  exact ⟨by decide, by decide⟩

/-- C3 (amended): the redirection operators are recognized only as exact
whole argument words (`get_redirect` compares complete words), but the pipe
is split at the raw character level before lexing: every `|` character in
the line separates stages, whether quoted, glued to text, or free-standing,
so the number of stages is always the number of `|` characters plus one. -/
theorem c3_pipe_char_level_redirect_word_level :
    (∀ line : List Char, (mainStages line).length = line.count '|' + 1) ∧
    (∀ (args ops : List (List Char)), (∀ a ∈ args, a ∉ ops) →
      get_redirect args ops = .ok (none, args)) := by
  constructor
  · intro line
    unfold mainStages
    rw [List.length_map]
    exact splitChar_length '|' line
  · intro args ops h
    unfold get_redirect
    rw [position_eq_none (fun a ha => by simp [h a ha])]

/-- Witness for C3: the amended statement applied at concrete inputs —
a glued `>x` word is not treated as a redirection operator, and a line
without `|` is a single stage. -/
theorem c3_witness :
    get_redirect ["echo".data, ">x".data] [">".data, "1>".data] =
      .ok (none, ["echo".data, ">x".data]) ∧
    (mainStages "echo hi".data).length = 1 :=
  ⟨c3_pipe_char_level_redirect_word_level.2 ["echo".data, ">x".data]
      [">".data, "1>".data] (by decide),
   by rw [c3_pipe_char_level_redirect_word_level.1 "echo hi".data]; decide⟩

/-- C5: when a redirection operator is the last word of a stage,
`get_redirect` evaluates `args[pos + 1]` with `pos + 1 = args.len()`, an
out-of-bounds index: the process panics instead of reporting a parse error
and returning to the prompt.  (With a following word the extraction works,
second conjunct.) -/
theorem c5_trailing_redirect_operator_panics :
    get_redirect ["hi".data, ">".data] [">".data, "1>".data] = .error () ∧
    get_redirect ["hi".data, ">".data, "out.txt".data] [">".data, "1>".data] =
      .ok (some "out.txt".data, ["hi".data]) := by
  exact ⟨by decide, by decide⟩

/-- C4 counterexample: `open_file_create_dirs` (used by the RW pipeline)
never sets `truncate`, so a non-append redirection preserves an existing
file's prior contents; and `checks_redirects` (src/main.rs, which does
truncate) never creates missing parent directories.  Neither cited opener
satisfies the claim's conjunction. -/
theorem c4_counterexample_no_truncate_no_dirs :
    (open_file_create_dirs false).2.truncate = false ∧
    openResult (open_file_create_dirs false).2 (some "old-data".data) =
      some "old-data".data ∧
    (checks_redirects (some "out".data) none).map (fun r => r.2.1) = some false := by
  exact ⟨rfl, by decide, by decide⟩

/-- C4 (amended): `open_file_create_dirs` creates missing parent
directories and opens read+write+create with append chosen by the variant,
but never truncates — prior contents survive even non-append opens (writes
then overwrite in place); `checks_redirects` truncates on non-append opens
and appends on append opens, but creates no parent directories. -/
theorem c4_open_semantics_per_function (ap : Bool) (prior buf p : List Char) :
    (open_file_create_dirs ap).1 = true ∧
    (open_file_create_dirs ap).2.create = true ∧
    (open_file_create_dirs ap).2.read = true ∧
    (open_file_create_dirs ap).2.write = true ∧
    (open_file_create_dirs ap).2.append = ap ∧
    openResult (open_file_create_dirs ap).2 (some prior) = some prior ∧
    openResult (open_file_create_dirs ap).2 none = some [] ∧
    writeEffect (open_file_create_dirs true).2 prior buf = prior ++ buf ∧
    (checks_redirects (some p) none).map (fun r => openResult r.2.2 (some prior)) =
      some (some []) ∧
    (checks_redirects none (some p)).map (fun r => openResult r.2.2 (some prior)) =
      some (some prior) ∧
    (checks_redirects none (some p)).map (fun r => writeEffect r.2.2 prior buf) =
      some (prior ++ buf) ∧
    (checks_redirects (some p) none).map (fun r => r.2.1) = some false ∧
    (checks_redirects none (some p)).map (fun r => r.2.1) = some false := by
  refine ⟨rfl, rfl, rfl, rfl, rfl, rfl, rfl, rfl, rfl, rfl, rfl, rfl, rfl⟩

/-- C6: on an empty (or whitespace-only) input line, `parse_args` returns
the empty vector and `handle`'s `parsed.remove(0)` panics — the shell
crashes instead of producing a no-op.  The dispatcher's empty-*word* path
does behave as claimed (`execute` on `[""]` is a no-op with exit code 0),
but `execute` on an empty *vector* panics in `split_first().expect`. -/
theorem c6_empty_input_crashes_not_noop :
    parse_args [] = [] ∧
    parse_args " ".data = [] ∧
    handleStageCommand [] = .error () ∧
    handleStageCommand " ".data = .error () ∧
    splitChar '|' [] = [[]] ∧
    executeM ⟨[], some [], []⟩ (fun _ => true) [[]] = .builtin ⟨.noOutput, 0⟩ ∧
    executeM ⟨[], some [], []⟩ (fun _ => true) [] = .panic := by
  refine ⟨by decide, by decide, by decide, by decide, by decide, by decide, by decide⟩

/-- C9 counterexample: `echo` renders its arguments through `Value::from`,
which parses `007` as the integer 7, so `echo 007` prints `7`, not the
space-join of the argument words. -/
theorem c9_counterexample_echo_canonicalizes_integers :
    executeM ⟨[], some [], []⟩ (fun _ => true) ["echo".data, "007".data] =
      .builtin ⟨.stdout "7".data false, 0⟩ ∧
    "7".data ≠ "007".data ∧
    joinSpace ["007".data] = "007".data := by
  exact ⟨by decide, by decide, by decide⟩

/-- C9 (amended): for every argument word list none of whose words parses
as an `i32` or matches the `f32` grammar, the `echo` builtin produces the
words joined with single spaces on stdout (with a newline appended by the
non-flush rendering) and exit code 0; words that do parse numerically are
canonicalized through the parse (e.g. `echo 007` prints `7`). -/
theorem c9_echo_joins_nonnumeric_words (env : ShellEnv)
    (chdirOk : List Char → Bool) (args : List (List Char))
    (h : ∀ w ∈ args, parseI32 w = none ∧ f32Parseable w = false) :
    executeM env chdirOk ("echo".data :: args) =
      .builtin ⟨.stdout (joinSpace args) false, 0⟩ := by
  have heval : executeM env chdirOk ("echo".data :: args) =
      .builtin ⟨.stdout (displayValue (valueFromIter args)) false, 0⟩ := by
    simp [executeM]
  rw [heval, display_fromIter_nonnumeric args h]

/-- Witness for C9: the amended theorem applied to `echo hello world`. -/
theorem c9_witness :
    executeM ⟨[], some [], []⟩ (fun _ => true)
      ["echo".data, "hello".data, "world".data] =
      .builtin ⟨.stdout "hello world".data false, 0⟩ :=
  (c9_echo_joins_nonnumeric_words ⟨[], some [], []⟩ (fun _ => true)
    ["hello".data, "world".data] (by decide)).trans (by decide)

/-- C10: the `cd` builtin computes its target path with
`value.get(0, "~").replace("~", &home)`: *every* occurrence of `~` in the
argument word — not only a leading one — is replaced by `$HOME` before the
directory change is attempted. -/
theorem c10_cd_replaces_every_tilde (arg home : List Char) (h : '~' ∈ arg) :
    cdAttempted [arg] home =
      (arg.map (fun c => if c = '~' then home else [c])).flatten := by
  have h1 : parseI32 arg = none := parseI32_eq_none_of_tilde h
  have h2 : f32Parseable arg = false := f32Parseable_false_of_tilde h
  have hv : valueFromIter [arg] = .str arg := by
    unfold valueFromIter
    rw [if_neg (by simp), if_neg (by simp)]
    exact valueFromString_str h1 h2
  unfold cdAttempted
  rw [hv]
  exact replaceTilde_eq_flatten home arg

/-- Witness for C10: `cd /tmp/a~b` with `$HOME = /h` attempts
`/tmp/a/hb`. -/
theorem c10_witness :
    '~' ∈ "/tmp/a~b".data ∧
    cdAttempted ["/tmp/a~b".data] "/h".data = "/tmp/a/hb".data :=
  ⟨by decide,
   (c10_cd_replaces_every_tilde "/tmp/a~b".data "/h".data (by decide)).trans
     (by decide)⟩

/-- C7 counterexample: an error while waiting on a *non-terminal* External
stage returns immediately with a stderr result and exit code 1 — the later
stages are not waited on and the terminal stage's result is not
returned. -/
theorem c7_counterexample_intermediate_wait_error_aborts :
    finalize_executions
      [.external ⟨.error "boom".data, .ok ([], [], some 0)⟩,
       .builtin ⟨.stdout "x".data false, 0⟩] =
      ⟨.stderr "Error waiting for intermediate command: boom\n".data true, 1⟩ ∧
    (⟨.stderr "Error waiting for intermediate command: boom\n".data true, 1⟩ :
        CommandResult) ≠
      ⟨.stdout "x".data false, 0⟩ := by
  exact ⟨by decide, by decide⟩

/-- C7 (amended): finalization walks the handles in order, skipping
Builtins and waiting on each non-terminal External; *when every one of
those waits succeeds* the returned `CommandResult` is the terminal stage's
(builtin result, or the captured output and exit status of
`wait_with_output`).  An error waiting on a non-terminal External instead
aborts immediately with a stderr result and exit code 1. -/
theorem c7_successful_prefix_yields_terminal_result (pre : List StageHandle)
    (last : StageHandle) (h : pre.all waitOkB = true) :
    finalize_executions (pre ++ [last]) = finalizeTerminal last := by
  induction pre with
  | nil =>
    rw [List.nil_append]
    cases last <;> rfl
  | cons hd tl ih =>
    have h' : waitOkB hd = true ∧ tl.all waitOkB = true := by
      simpa using h
    obtain ⟨a, as, ha⟩ : ∃ a as, tl ++ [last] = a :: as := by
      rcases htl : tl ++ [last] with _ | ⟨a, as⟩
      · exact absurd htl (by simp)
      · exact ⟨a, as, rfl⟩
    cases hd with
    | builtin r =>
      calc finalize_executions ((StageHandle.builtin r :: tl) ++ [last])
          = finalize_executions (.builtin r :: (tl ++ [last])) := by
            rw [List.cons_append]
        _ = finalize_executions (.builtin r :: a :: as) := by rw [ha]
        _ = finalize_executions (a :: as) := by rw [finalize_executions]
        _ = finalize_executions (tl ++ [last]) := by rw [← ha]
        _ = finalizeTerminal last := ih h'.2
    | external p =>
      have hw : p.wait = .ok () := by
        have := h'.1
        simpa [waitOkB] using this
      calc finalize_executions ((StageHandle.external p :: tl) ++ [last])
          = finalize_executions (.external p :: (tl ++ [last])) := by
            rw [List.cons_append]
        _ = finalize_executions (.external p :: a :: as) := by rw [ha]
        _ = finalize_executions (a :: as) := by
            rw [finalize_executions, hw]
        _ = finalize_executions (tl ++ [last]) := by rw [← ha]
        _ = finalizeTerminal last := ih h'.2

/-- Witness for C7: a builtin and a successfully-waited external before a
terminal builtin; the terminal result is returned. -/
theorem c7_witness :
    ([.builtin ⟨.noOutput, 0⟩, .external ⟨.ok (), .error []⟩] :
        List StageHandle).all waitOkB = true ∧
    finalize_executions
      ([.builtin ⟨.noOutput, 0⟩, .external ⟨.ok (), .error []⟩] ++
        [.builtin ⟨.stdout "done".data false, 0⟩]) =
      ⟨.stdout "done".data false, 0⟩ :=
  ⟨by decide,
   (c7_successful_prefix_yields_terminal_result
      [.builtin ⟨.noOutput, 0⟩, .external ⟨.ok (), .error []⟩]
      (.builtin ⟨.stdout "done".data false, 0⟩) (by decide)).trans (by decide)⟩

/-- C8 counterexample: in a three-stage pipeline whose middle stage carries
a stdout redirection, the middle stage's pipe writer is never taken — after
all stages are dispatched the parent still holds writer slot 1, contrary to
the claim that this holds "also when a middle stage carries a stdout
redirection". -/
theorem c8_counterexample_middle_redirect_retains_writer :
    (handleDispatch 3 (fun i => decide (i = 1))).map (fun st => st.2 1) =
      .ok true := by
  decide

/-- C8 (amended): dispatch always completes — every take-once slot is
emptied at most once, so no `take()` on an already-empty slot ever fires —
and afterwards every pipe reader has been consumed, while the parent
retains exactly the pipe writers of the non-terminal stages that carry a
stdout redirection (those writer slots are never taken). -/
theorem c8_endpoint_consumption (n : Nat) (redir : Nat → Bool) :
    ∃ rsF wsF, handleDispatch n redir = .ok (rsF, wsF) ∧
      (∀ j, j < n - 1 → rsF j = false) ∧
      (∀ j, j < n - 1 → wsF j = redir j) := by
  exact handleDispatchLoop_spec n redir n 0 (fun _ => true) (fun _ => true)
    (by omega) (fun j hj => by simp) (fun j hj => by simp)

/-- Witness for C8: the amended statement evaluated on the three-stage
pipeline with a redirected middle stage — both readers and the first writer
are consumed. -/
theorem c8_witness :
    (handleDispatch 3 (fun i => decide (i = 1))).map
      (fun st => (st.1 0, st.1 1, st.2 0)) = .ok (false, false, false) := by
  obtain ⟨rsF, wsF, heq, hr, hw⟩ := c8_endpoint_consumption 3 (fun i => decide (i = 1))
  rw [heq]
  simp only [Except.map]
  rw [hr 0 (by omega), hr 1 (by omega), hw 0 (by omega)]
  rfl

/-! ## Cross-checks against the repository's own unit tests

The following evaluations mirror the expectations in src/tests.rs and the
inline tests of src/strings.rs. -/

section Sanity
open Shell

example : tokenize "echo hello world".data =
    .ok ["echo".data, "hello".data, "world".data] := by decide

example : tokenize "echo 'a  b' c".data = .ok ["echo".data, "a  b".data, "c".data] := by
  decide

example : tokenize "'hello\\'world'".data = .ok ["hello\\'world".data] := by decide

example : tokenize "\"hello\\\"world\"".data = .ok ["hello\"world".data] := by decide

example : tokenize "\"hello\\nworld\"".data = .ok ["hello\\nworld".data] := by decide

example : tokenize "hello\\nworld".data = .ok ["hellonworld".data] := by decide

example : tokenize "'hello".data = .error .unclosedQuote := by decide

example : tokenize "hello\\".data = .error .trailingEscape := by decide

example : tokenize "'ab\\".data = .error .trailingEscape := by decide

end Sanity
